import Mathlib

/-!
Verification of the `terragrunt-status` core (`src/bin/terragrunt-status.mjs`)
against its specification.

The JavaScript source is shallowly embedded: each function becomes a Lean
function over explicit inputs.  Subprocess invocations are modelled by
passing in the events the runtime delivers for one `spawn` call
(`SpawnEvents`) or the accumulated result (`SubprocessResult`).  JS strings
are Lean `String`s; `s.includes(pat)` and `s.split('\n')` are modelled by
structurally recursive functions over `String.data` so that every
definition evaluates inside the kernel.  The external `toposort` npm
library (not part of this repository's sources) is modelled from the spec:
a deterministic DFS-based topological sort over the edge relation that
fails with a cyclic-graph error when a cycle is detected.
-/

/-- Chars-level prefix test, used to model JS `String.prototype.includes`. -/
def listStartsWith : List Char → List Char → Bool
  | [], _ => true
  | _ :: _, [] => false
  | p :: ps, x :: xs => p == x && listStartsWith ps xs

/-- Chars-level contiguous-substring test (the search of JS `includes`). -/
def charsContain (pat : List Char) : List Char → Bool
  | [] => listStartsWith pat []
  | x :: xs => listStartsWith pat (x :: xs) || charsContain pat xs

/-- JS `s.includes(pat)`: `pat` occurs contiguously in `s`.  All patterns the
source matches against are nonempty, for which this agrees with JS. -/
def String.includes (s pat : String) : Bool := charsContain pat.data s.data

/-- JS `s.split('\n')`: split a character list at every newline character.
`splitLines [] = [[]]`, matching JS `''.split('\n') = ['']`. -/
def splitLines : List Char → List (List Char)
  | [] => [[]]
  | c :: cs =>
    match splitLines cs with
    | [] => [[]]
    | l :: ls => if c == '\n' then [] :: l :: ls else (c :: l) :: ls

/-- The events Node delivers for one `spawn` call: the optional `error` event
payload (emitted when the process could not be launched), the accumulated
`data` events of both output streams, and the `close` event's exit code
(`none` models JS `null`: the process was never launched or was killed by a
signal, so there is no exit code). -/
structure SpawnEvents where
  spawnError : Option String
  stdout : String
  stderr : String
  closeCode : Option Int
deriving Repr, DecidableEq

/-- The `ret` record accumulated by `execProcess`: the value a rejection
carries, and the stdout/stderr/exitCode part of a resolution. -/
structure SubprocessResult where
  stdout : String
  stderr : String
  exitCode : Int
deriving Repr, DecidableEq

/-- The value `execProcess` resolves with: `ret` together with the `err`
field attached on the resolve path (`ret.err = error`). -/
structure ExecResult where
  stdout : String
  stderr : String
  exitCode : Int
  err : Option String
deriving Repr, DecidableEq

/-- `execProcess(file, args, opts, rejectIfExitNonzero)` from the source,
as a function of the spawn events.  On `close` the source runs
`ret.exitCode = code || 0` (so a `null` close code becomes `0`), then
`if (code !== 0 && rejectIfExitNonzero) reject(ret)` — note the rejection
carries only `ret`, not the captured launch error — `else { ret.err =
error; resolve(ret) }`. -/
def execProcess (ev : SpawnEvents) (rejectIfExitNonzero : Bool) :
    Except SubprocessResult ExecResult :=
  let ret : SubprocessResult :=
    { stdout := ev.stdout, stderr := ev.stderr, exitCode := ev.closeCode.getD 0 }
  if ev.closeCode ≠ some 0 ∧ rejectIfExitNonzero = true then Except.error ret
  else Except.ok
    { stdout := ret.stdout, stderr := ret.stderr, exitCode := ret.exitCode
    , err := ev.spawnError }

/-- The resolution value of `execProcess` (reached whenever
`rejectIfExitNonzero` is false, as in both status probes). -/
def execResolution (ev : SpawnEvents) : ExecResult :=
  { stdout := ev.stdout, stderr := ev.stderr, exitCode := ev.closeCode.getD 0
  , err := ev.spawnError }

/-- The record built by `isDeployed`: `deployed`/`success` start `false`,
`failReason` models the optional `failReason` field (absent = `none`). -/
structure IsDeployedResult where
  deployed : Bool
  success : Bool
  failReason : Option String
deriving Repr, DecidableEq

/-- The `failReason` of the exit-zero-but-empty-listing branch of
`isDeployed`. -/
def emptyStateFailReason : String :=
  "Terragrunt exited zero, but Terraform did not output anything from \"terragrunt state list\"."

/-- `isDeployed` from the source, as a function of the accumulated result of
the `terragrunt state list` probe.  The stderr patterns are checked in
source order; the chalk markup of the initialization message is dropped
(presentation only). -/
def isDeployed (result : SubprocessResult) : IsDeployedResult :=
  if result.stderr.includes "No state file was found!" then
    { deployed := false, success := false, failReason := some "No state file found." }
  else if result.stderr.includes "but detected no outputs" then
    { deployed := false, success := false, failReason := some "Parent stack not deployed." }
  else if result.stderr.includes "Error finding AWS credentials" then
    { deployed := false, success := false, failReason := some "Could not find AWS credentials." }
  else if result.stderr.includes "Initialization required" ||
      result.stderr.includes "Could not load plugin" then
    { deployed := false, success := false
    , failReason := some "Initialization required. Run terragrunt init in this folder." }
  else if result.exitCode ≠ 0 then
    { deployed := false, success := false, failReason := some "Unknown" }
  else if (splitLines result.stdout.data).length > 1 then
    { deployed := true, success := true, failReason := none }
  else
    { deployed := false, success := true, failReason := some emptyStateFailReason }

/-- The record built by `getPlan`. -/
structure PlanResult where
  hasChanges : Bool
  success : Bool
deriving Repr, DecidableEq

/-- `getPlan` from the source, as a function of the accumulated result of
the `terragrunt plan -detailed-exitcode` probe. -/
def getPlan (result : SubprocessResult) : PlanResult :=
  if result.exitCode = 0 then { hasChanges := false, success := true }
  else if result.exitCode = 2 then { hasChanges := true, success := true }
  else { hasChanges := false, success := false }

/-- The per-stack record built by `getStatus`: `planResult` is present only
when the deployment probe reported `deployed`. -/
structure StatusResult where
  isDeployedResult : IsDeployedResult
  planResult : Option PlanResult
deriving Repr, DecidableEq

/-- `getStatus` from the source, as a function of the two subprocess
results: it always runs the deployment probe, and consumes the plan probe
if and only if `isDeployedResult.deployed` is true. -/
def getStatus (stateListResult planProbeResult : SubprocessResult) : StatusResult :=
  let d := isDeployed stateListResult
  { isDeployedResult := d
  , planResult := if d.deployed then some (getPlan planProbeResult) else none }

/-- Projection from a resolved `execProcess` value to the fields the probes
read. -/
def ExecResult.toSubprocessResult (r : ExecResult) : SubprocessResult :=
  { stdout := r.stdout, stderr := r.stderr, exitCode := r.exitCode }

/-- One stack's probing pipeline, from spawn events through `execProcess`
(with `rejectIfExitNonzero = false`, as in the source) into `getStatus`.
An `Except.error` models a rejection escaping the probe. -/
def getStatusFromEvents (stateEv planEv : SpawnEvents) :
    Except SubprocessResult StatusResult :=
  match execProcess stateEv false with
  | Except.error r => Except.error r
  | Except.ok r =>
    let d := isDeployed r.toSubprocessResult
    if d.deployed then
      match execProcess planEv false with
      | Except.error r2 => Except.error r2
      | Except.ok r2 =>
        Except.ok { isDeployedResult := d
                  , planResult := some (getPlan r2.toSubprocessResult) }
    else Except.ok { isDeployedResult := d, planResult := none }

/-- The per-stack status value actually produced (the probes never reject,
since both pass `rejectIfExitNonzero = false`). -/
def probeStack (stateEv planEv : SpawnEvents) : StatusResult :=
  let d := isDeployed (execResolution stateEv).toSubprocessResult
  { isDeployedResult := d
  , planResult :=
      if d.deployed then some (getPlan (execResolution planEv).toSubprocessResult)
      else none }

/-- `getStatusAll` from the source: fan out `getStatus` over the processing
set and await all of them (`Promise.all`: one rejection rejects the whole
aggregation, modelled by `mapM` over `Except`). -/
def getStatusAll (stateEvs planEvs : String → SpawnEvents) (stackList : List String) :
    Except SubprocessResult (List StatusResult) :=
  stackList.mapM (fun s => getStatusFromEvents (stateEvs s) (planEvs s))

/-- The dot graph parsed by `dotparser`, reduced to the two statement kinds
`getDependencyTree` reads: edge statements (as ordered id pairs) and
standalone node statements. -/
structure ParsedGraph where
  edgeStmts : List (String × String)
  nodeStmts : List String
deriving Repr, DecidableEq

/-- Models the JS `[...new Set(arr)]` applied by `getDependencyTree` to the
mapped edge list.  Every element of `arr` is an array freshly created by
`arr.map(...)`, and a JS `Set` compares objects by reference, so no two
elements are ever merged and insertion order is kept: the spread is the
identity on the list. -/
def jsSetOfArrays (l : List (String × String)) : List (String × String) := l

/-- The `onlyEdges` value of `getDependencyTree`: every edge statement
normalized by `path.relative(cwd, ·)` (the abstract `rel`), then passed
through the reference-based `new Set`. -/
def onlyEdges (rel : String → String) (g : ParsedGraph) : List (String × String) :=
  jsSetOfArrays (g.edgeStmts.map (fun e => (rel e.1, rel e.2)))

/-- The error classification of the Topological Orderer. -/
inductive TopoError where
  | cyclicGraph
deriving Repr, DecidableEq

/-- State threaded through the DFS: nodes already visited, and the sorted
output built back to front. -/
structure VisitState where
  visited : List String
  sorted : List String
deriving Repr, DecidableEq

/-- Modelled from the spec (Topological Orderer): the deduplicated successor
list of `node` in the edge relation, i.e. the targets of the edges leaving
`node`. -/
def childrenOf (edges : List (String × String)) (node : String) : List String :=
  ((edges.filter (fun e => e.1 == node)).map Prod.snd).dedup

/-- Modelled from the spec (Topological Orderer): the deduplicated list of
nodes mentioned by the edge set, in first-mention order up to
deduplication. -/
def uniqueNodes (edges : List (String × String)) : List String :=
  (edges.foldr (fun e acc => e.1 :: e.2 :: acc) []).dedup

/-- Visit a worklist of nodes in order with a given visitor, stopping at the
first error. -/
def visitList (visit : String → VisitState → Except TopoError VisitState) :
    List String → VisitState → Except TopoError VisitState
  | [], st => Except.ok st
  | c :: cs, st =>
    match visit c st with
    | Except.error e => Except.error e
    | Except.ok st2 => visitList visit cs st2

/-- Modelled from the spec: one DFS visit of the Topological Orderer (the
external `toposort` library call in `getDependencyTree`, whose code is not
part of this repository).  A node found on the current DFS stack (`preds`)
is a cycle and is fatal; an already-visited node is skipped; otherwise the
node's successors are visited first and the node is then prepended to the
sorted output.  `fuel` bounds the recursion depth; `toposort` supplies one
more than the number of nodes, which a cycle-free input can never
exhaust. -/
def visitNode (edges : List (String × String)) :
    Nat → String → List String → VisitState → Except TopoError VisitState
  | 0, _, _, _ => Except.error TopoError.cyclicGraph
  | Nat.succ fuel, node, preds, st =>
    if node ∈ preds then Except.error TopoError.cyclicGraph
    else if node ∈ st.visited then Except.ok st
    else
      match visitList (fun c s => visitNode edges fuel c (node :: preds) s)
          (childrenOf edges node)
          { visited := node :: st.visited, sorted := st.sorted } with
      | Except.error e => Except.error e
      | Except.ok st2 => Except.ok { visited := st2.visited, sorted := node :: st2.sorted }

/-- Modelled from the spec: the Topological Orderer's sort.  For an edge
`(a, b)` (stack `a` depends on stack `b`), `a` is listed before `b`; a
cycle is a fatal `cyclicGraph` error and no order is produced. -/
def toposort (edges : List (String × String)) : Except TopoError (List String) :=
  match visitList (fun n s => visitNode edges ((uniqueNodes edges).length + 1) n [] s)
      (uniqueNodes edges) { visited := [], sorted := [] } with
  | Except.error e => Except.error e
  | Except.ok st => Except.ok st.sorted

/-- The `OrderedDependencies` triple built by `getDependencyTree`. -/
structure DependencyTree where
  destroyOrder : List String
  deployOrder : List String
  noDeps : List String
deriving Repr, DecidableEq

/-- `getDependencyTree` from the source, as a function of the parsed graph
and the normalization `rel` (`path.relative(cwd, ·)`): `destroyOrder` is
the topological sort of `onlyEdges`, `deployOrder` is the reverse of a copy
of it, and `noDeps` keeps the normalized standalone node statements not
occurring in `destroyOrder`.  A `toposort` error propagates (the source
catches it and exits the process without producing any tree). -/
def getDependencyTree (rel : String → String) (g : ParsedGraph) :
    Except TopoError DependencyTree :=
  match toposort (onlyEdges rel g) with
  | Except.error e => Except.error e
  | Except.ok destroyOrder =>
    Except.ok
      { destroyOrder := destroyOrder
      , deployOrder := destroyOrder.reverse
      , noDeps := (g.nodeStmts.map rel).filter (fun n => decide (n ∉ destroyOrder)) }

/-- All node identifiers mentioned anywhere in the raw graph — as an edge
endpoint or a standalone node declaration — normalized by `rel` (the
spec's `allNodes`). -/
def allNodes (rel : String → String) (g : ParsedGraph) : List String :=
  g.edgeStmts.map (fun e => rel e.1) ++ g.edgeStmts.map (fun e => rel e.2) ++
    g.nodeStmts.map rel

/-- The processing set built by `go` before calling `getStatusAll`:
`deployOrder` concatenated with `noDeps`. -/
def goProcessingSet (t : DependencyTree) : List String :=
  t.deployOrder ++ t.noDeps

/-- The end-to-end status report of one run of `go`: `none` when the
dependency tree (or the aggregation) fails, the aggregated per-stack
results otherwise. -/
def goStatusReport (rel : String → String) (g : ParsedGraph)
    (stateEvs planEvs : String → SpawnEvents) : Option (List StatusResult) :=
  match getDependencyTree rel g with
  | Except.error _ => none
  | Except.ok t => (getStatusAll stateEvs planEvs (goProcessingSet t)).toOption

/-- The edge relation of an edge list. -/
def edgeRel (edges : List (String × String)) (a b : String) : Prop :=
  (a, b) ∈ edges

instance (edges : List (String × String)) (a b : String) : Decidable (edgeRel edges a b) :=
  inferInstanceAs (Decidable ((a, b) ∈ edges))

/-- An edge set contains a cycle: some node reaches itself through one or
more edges. -/
def hasCycle (edges : List (String × String)) : Prop :=
  ∃ a, Relation.TransGen (edgeRel edges) a a

/-- `s` is topologically sorted for `edges`: wherever an edge source occurs
in `s`, the edge target occurs strictly later. -/
def TopoSorted (edges : List (String × String)) (s : List String) : Prop :=
  ∀ a b, (a, b) ∈ edges → ∀ u v, s = u ++ a :: v → b ∈ v

/-- Invariant of the DFS state relative to the current stack `preds`: the
output is duplicate-free, lies inside the visited set, every visited node
is either already output or still on the stack, and the output is
topologically sorted. -/
def StateInv (edges : List (String × String)) (preds : List String)
    (st : VisitState) : Prop :=
  st.sorted.Nodup ∧
  (∀ x ∈ st.sorted, x ∈ st.visited) ∧
  (∀ x ∈ st.visited, x ∈ st.sorted ∨ x ∈ preds) ∧
  TopoSorted edges st.sorted

/-- Postcondition of a successful `visitNode` call. -/
def VisitOk (edges : List (String × String)) (node : String) (preds : List String)
    (st st2 : VisitState) : Prop :=
  node ∉ preds ∧
  node ∈ st2.visited ∧
  (∀ x ∈ st.visited, x ∈ st2.visited) ∧
  (∃ lnew, st2.sorted = lnew ++ st.sorted ∧ ∀ x ∈ lnew, x ∉ st.visited) ∧
  (∀ x ∈ st2.visited, x ∈ st.visited ∨ x = node ∨ ∃ e ∈ edges, x = e.2) ∧
  (StateInv edges preds st → StateInv edges preds st2)

/-- Postcondition of a successful `visitList` run over a worklist. -/
def VisitListOk (edges : List (String × String)) (cs : List String)
    (preds : List String) (st st2 : VisitState) : Prop :=
  (∀ c ∈ cs, c ∈ st2.visited ∧ c ∉ preds) ∧
  (∀ x ∈ st.visited, x ∈ st2.visited) ∧
  (∃ lnew, st2.sorted = lnew ++ st.sorted ∧ ∀ x ∈ lnew, x ∉ st.visited) ∧
  (∀ x ∈ st2.visited, x ∈ st.visited ∨ x ∈ cs ∨ ∃ e ∈ edges, x = e.2) ∧
  (StateInv edges preds st → StateInv edges preds st2)

/-! ## Helper lemmas: subprocess runner and probe pipeline -/

/-- With `rejectIfExitNonzero = false` the runner always resolves. -/
theorem execProcess_false_eq (ev : SpawnEvents) :
    execProcess ev false = Except.ok (execResolution ev) := by
  simp [execProcess, execResolution]

/-- The per-stack pipeline never rejects and computes `probeStack`. -/
theorem getStatusFromEvents_eq (stateEv planEv : SpawnEvents) :
    getStatusFromEvents stateEv planEv = Except.ok (probeStack stateEv planEv) := by
  unfold getStatusFromEvents probeStack
  rw [execProcess_false_eq, execProcess_false_eq]
  by_cases h : (isDeployed (execResolution stateEv).toSubprocessResult).deployed <;> simp [h]

/-- `mapM.loop` of an always-`ok` function over `Except` computes the map. -/
theorem mapM_loop_ok {α β ε : Type} (f : α → β) :
    ∀ (l : List α) (acc : List β),
      List.mapM.loop (fun a => (Except.ok (f a) : Except ε β)) l acc =
        Except.ok (acc.reverse ++ l.map f) := by
  intro l
  induction l with
  | nil =>
    intro acc
    have h1 : List.mapM.loop (fun a => (Except.ok (f a) : Except ε β)) [] acc =
        Except.ok acc.reverse := rfl
    rw [h1]
    simp
  | cons a l ih =>
    intro acc
    have h1 : List.mapM.loop (fun a => (Except.ok (f a) : Except ε β)) (a :: l) acc =
        List.mapM.loop (fun a => (Except.ok (f a) : Except ε β)) l (f a :: acc) := rfl
    rw [h1, ih]
    simp

/-- `mapM` of an always-`ok` function over `Except` computes the map. -/
theorem mapM_ok {α β ε : Type} (f : α → β) (l : List α) :
    List.mapM (fun a => (Except.ok (f a) : Except ε β)) l = Except.ok (l.map f) := by
  rw [List.mapM]
  simp [mapM_loop_ok]

/-- The fan-out aggregation never rejects: it returns one result per stack,
each computed from that stack's own probe events only. -/
theorem getStatusAll_eq (stateEvs planEvs : String → SpawnEvents) :
    ∀ stackList : List String,
      getStatusAll stateEvs planEvs stackList =
        Except.ok (stackList.map (fun s => probeStack (stateEvs s) (planEvs s))) := by
  intro stackList
  simp only [getStatusAll, getStatusFromEvents_eq]
  exact mapM_ok (fun s => probeStack (stateEvs s) (planEvs s)) stackList

/-! ## Claim theorems: probes -/

/-- Claim C4: `getPlan` maps plan-probe exit codes as: 0 yields success with
no changes, 2 yields success with changes, and every other exit code yields
failure with no changes. -/
theorem getPlan_exit_code_mapping (r : SubprocessResult) :
    (r.exitCode = 0 → getPlan r = { hasChanges := false, success := true }) ∧
    (r.exitCode = 2 → getPlan r = { hasChanges := true, success := true }) ∧
    (r.exitCode ≠ 0 → r.exitCode ≠ 2 →
      getPlan r = { hasChanges := false, success := false }) := by
  refine ⟨fun h => by simp [getPlan, h], fun h => by simp [getPlan, h],
    fun h0 h2 => by simp [getPlan, h0, h2]⟩

/-- Witness for C4 at exit codes 0, 2 and 1. -/
theorem getPlan_exit_code_mapping_witness :
    ((0 : Int) = 0 ∧ getPlan { stdout := "", stderr := "", exitCode := 0 } =
      { hasChanges := false, success := true }) ∧
    ((2 : Int) = 2 ∧ getPlan { stdout := "", stderr := "", exitCode := 2 } =
      { hasChanges := true, success := true }) ∧
    ((1 : Int) ≠ 0 ∧ (1 : Int) ≠ 2 ∧ getPlan { stdout := "", stderr := "", exitCode := 1 } =
      { hasChanges := false, success := false }) :=
  ⟨⟨rfl, (getPlan_exit_code_mapping { stdout := "", stderr := "", exitCode := 0 }).1 rfl⟩,
   ⟨rfl, (getPlan_exit_code_mapping { stdout := "", stderr := "", exitCode := 2 }).2.1 rfl⟩,
   ⟨by decide, by decide,
    (getPlan_exit_code_mapping { stdout := "", stderr := "", exitCode := 1 }).2.2
      (by decide) (by decide)⟩⟩

/-- Claim C5: on a state-listing result with exit code 0 whose stderr matches
none of the known failure patterns, `isDeployed` reports not-deployed with
probe success and the empty-state reason whenever the stdout has at most
one line, and reports deployed exactly when the stdout has more than one
line. -/
theorem isDeployed_empty_state (r : SubprocessResult)
    (h0 : r.exitCode = 0)
    (h1 : r.stderr.includes "No state file was found!" = false)
    (h2 : r.stderr.includes "but detected no outputs" = false)
    (h3 : r.stderr.includes "Error finding AWS credentials" = false)
    (h4 : r.stderr.includes "Initialization required" = false)
    (h5 : r.stderr.includes "Could not load plugin" = false) :
    ((splitLines r.stdout.data).length ≤ 1 →
      isDeployed r =
        { deployed := false, success := true, failReason := some emptyStateFailReason }) ∧
    ((isDeployed r).deployed = true ↔ 1 < (splitLines r.stdout.data).length) := by
  constructor
  · intro hle
    simp [isDeployed, h0, h1, h2, h3, h4, h5, Nat.not_lt.mpr hle]
  · by_cases hlen : 1 < (splitLines r.stdout.data).length <;>
      simp [isDeployed, h0, h1, h2, h3, h4, h5, hlen]

/-- Witness for C5 at the probe result with stdout `"  "` (no newline),
empty stderr and exit code 0. -/
theorem isDeployed_empty_state_witness :
    (splitLines (String.data "  ")).length ≤ 1 ∧
    isDeployed { stdout := "  ", stderr := "", exitCode := 0 } =
      { deployed := false, success := true, failReason := some emptyStateFailReason } :=
  ⟨by decide,
   (isDeployed_empty_state { stdout := "  ", stderr := "", exitCode := 0 } rfl
      (by decide) (by decide) (by decide) (by decide) (by decide)).1 (by decide)⟩

/-- Claim C6: the plan probe is consumed if and only if the deployment probe
reported `deployed = true`; in particular a stderr containing the
no-state-file pattern forces not-deployed with the no-state-file reason and
no plan result. -/
theorem getStatus_plan_gating (stateListResult planProbeResult : SubprocessResult) :
    ((getStatus stateListResult planProbeResult).planResult.isSome = true ↔
      (isDeployed stateListResult).deployed = true) ∧
    (stateListResult.stderr.includes "No state file was found!" = true →
      (isDeployed stateListResult).deployed = false ∧
      (isDeployed stateListResult).failReason = some "No state file found." ∧
      (getStatus stateListResult planProbeResult).planResult = none) := by
  constructor
  · by_cases h : (isDeployed stateListResult).deployed <;> simp [getStatus, h]
  · intro h
    have hd : isDeployed stateListResult =
        { deployed := false, success := false, failReason := some "No state file found." } := by
      simp [isDeployed, h]
    simp [getStatus, hd]

/-- Witness for C6 at a probe whose stderr is exactly the no-state-file
message. -/
theorem getStatus_plan_gating_witness :
    (String.includes "No state file was found!" "No state file was found!" = true) ∧
    ((isDeployed { stdout := "", stderr := "No state file was found!", exitCode := 1 }).deployed = false ∧
     (isDeployed { stdout := "", stderr := "No state file was found!", exitCode := 1 }).failReason =
       some "No state file found." ∧
     (getStatus { stdout := "", stderr := "No state file was found!", exitCode := 1 }
        { stdout := "", stderr := "", exitCode := 0 }).planResult = none) :=
  ⟨by decide,
   (getStatus_plan_gating { stdout := "", stderr := "No state file was found!", exitCode := 1 }
      { stdout := "", stderr := "", exitCode := 0 }).2 (by decide)⟩

/-- Claim C7 (code evaluation at the failing input): the `new Set` wrapper in
`getDependencyTree` deduplicates by object reference, so a graph containing
the same normalized edge statement twice keeps both copies in `onlyEdges`
instead of collapsing them to one. -/
theorem onlyEdges_keeps_duplicate_edges :
    onlyEdges id { edgeStmts := [("a", "b"), ("a", "b")], nodeStmts := [] } =
      [("a", "b"), ("a", "b")] ∧
    onlyEdges id { edgeStmts := [("a", "b"), ("a", "b")], nodeStmts := [] } ≠
      [("a", "b")] ∧
    ¬ (onlyEdges id { edgeStmts := [("a", "b"), ("a", "b")], nodeStmts := [] }).Nodup :=
  ⟨rfl, by decide, by decide⟩

/-- Claim C8 counterexample: with `rejectIfExitNonzero = true`, a launch
failure (error event plus `null` close code) is rejected as the bare record
`stdout = "", stderr = "", exitCode = 0` — identical to the rejection of a
process that terminated without an exit code and without any launch error,
and carrying exit code 0 rather than any distinct launch-failure marker. -/
theorem execProcess_launch_failure_counterexample :
    (execProcess { spawnError := some "Error: spawn terragrunt ENOENT", stdout := ""
                 , stderr := "", closeCode := none } true =
      execProcess { spawnError := none, stdout := "", stderr := "", closeCode := none } true) ∧
    (execProcess { spawnError := some "Error: spawn terragrunt ENOENT", stdout := ""
                 , stderr := "", closeCode := none } true =
      Except.error { stdout := "", stderr := "", exitCode := 0 }) := by
  constructor <;> simp [execProcess]

/-- Claim C8 as amended: on the resolve path (`rejectIfExitNonzero = false`,
the configuration of both probes) a launch failure resolves with the launch
error attached in `err` and exit code 0 — distinguishable from every event
record without a launch error — while on the reject path the rejection
carries only `stdout`/`stderr`/`exitCode = 0` and drops the launch error;
in neither case is exit code 255 reported. -/
theorem execProcess_launch_failure_amended (ev : SpawnEvents) (e : String)
    (herr : ev.spawnError = some e) (hclose : ev.closeCode = none) :
    (execProcess ev false =
      Except.ok { stdout := ev.stdout, stderr := ev.stderr, exitCode := 0, err := some e }) ∧
    (∀ ev2 : SpawnEvents, ev2.spawnError = none →
      execProcess ev2 false ≠ execProcess ev false) ∧
    (execProcess ev true = Except.error { stdout := ev.stdout, stderr := ev.stderr, exitCode := 0 }) ∧
    (∀ r, execProcess ev false = Except.ok r → r.exitCode = 0 ∧ r.exitCode ≠ 255) := by
  have hok : execProcess ev false =
      Except.ok { stdout := ev.stdout, stderr := ev.stderr, exitCode := 0, err := some e } := by
    rw [execProcess_false_eq]
    simp [execResolution, herr, hclose]
  refine ⟨hok, ?_, ?_, ?_⟩
  · intro ev2 h2 hcontra
    rw [execProcess_false_eq, hok] at hcontra
    have hinj : execResolution ev2 =
        { stdout := ev.stdout, stderr := ev.stderr, exitCode := 0, err := some e } :=
      Except.ok.inj hcontra
    have herr2 : (execResolution ev2).err = some e := by rw [hinj]
    simp [execResolution, h2] at herr2
  · simp [execProcess, hclose]
  · intro r hr
    rw [hok] at hr
    cases hr
    refine ⟨rfl, ?_⟩
    simp

/-- Witness for C8 (amended) at a concrete ENOENT launch failure. -/
theorem execProcess_launch_failure_amended_witness :
    ((SpawnEvents.mk (some "Error: spawn terragrunt ENOENT") "" "" none).spawnError =
      some "Error: spawn terragrunt ENOENT") ∧
    ((SpawnEvents.mk (some "Error: spawn terragrunt ENOENT") "" "" none).closeCode = none) ∧
    (execProcess (SpawnEvents.mk (some "Error: spawn terragrunt ENOENT") "" "" none) false =
      Except.ok { stdout := "", stderr := "", exitCode := 0
                , err := some "Error: spawn terragrunt ENOENT" }) :=
  ⟨rfl, rfl,
   (execProcess_launch_failure_amended (SpawnEvents.mk (some "Error: spawn terragrunt ENOENT") "" "" none)
      "Error: spawn terragrunt ENOENT" rfl rfl).1⟩

/-- Claim C10: every `isDeployed` result satisfies exactly one of: deployed
(which forces probe success and an unset `failReason`), or not deployed
with a nonempty classified `failReason`. -/
theorem isDeployed_two_cases (r : SubprocessResult) :
    ((isDeployed r).deployed = true ∧ (isDeployed r).success = true ∧
      (isDeployed r).failReason = none) ∨
    ((isDeployed r).deployed = false ∧
      ∃ s, (isDeployed r).failReason = some s ∧ s ≠ "") := by
  unfold isDeployed
  split_ifs <;> simp [emptyStateFailReason]

/-! ## Helper lemmas: the Topological Orderer -/

/-- Successor-list membership is exactly the edge relation. -/
theorem mem_childrenOf (edges : List (String × String)) (node b : String) :
    b ∈ childrenOf edges node ↔ (node, b) ∈ edges := by
  simp only [childrenOf, List.mem_dedup, List.mem_map, List.mem_filter]
  constructor
  · rintro ⟨⟨x, y⟩, ⟨he, heq⟩, rfl⟩
    simp only [beq_iff_eq] at heq
    subst heq
    exact he
  · intro h
    exact ⟨(node, b), ⟨h, by simp⟩, rfl⟩

/-- Node-list membership is exactly being an endpoint of some edge. -/
theorem mem_uniqueNodes (edges : List (String × String)) (x : String) :
    x ∈ uniqueNodes edges ↔ ∃ e ∈ edges, x = e.1 ∨ x = e.2 := by
  simp only [uniqueNodes, List.mem_dedup]
  induction edges with
  | nil => simp
  | cons e es ih =>
    simp only [List.foldr_cons, List.mem_cons, ih]
    constructor
    · rintro (rfl | rfl | ⟨d, hd, hor⟩)
      · exact ⟨e, Or.inl rfl, Or.inl rfl⟩
      · exact ⟨e, Or.inl rfl, Or.inr rfl⟩
      · exact ⟨d, Or.inr hd, hor⟩
    · rintro ⟨d, rfl | hd, hor⟩
      · rcases hor with rfl | rfl
        · exact Or.inl rfl
        · exact Or.inr (Or.inl rfl)
      · exact Or.inr (Or.inr ⟨d, hd, hor⟩)

/-- Each successful step of the worklist loop composes the visitor's
postcondition. -/
theorem visitList_ok (edges : List (String × String)) (preds : List String)
    (visit : String → VisitState → Except TopoError VisitState)
    (hvisit : ∀ c st st2, visit c st = Except.ok st2 → VisitOk edges c preds st st2) :
    ∀ (cs : List String) (st st2 : VisitState),
      visitList visit cs st = Except.ok st2 → VisitListOk edges cs preds st st2 := by
  intro cs
  induction cs with
  | nil =>
    intro st st2 h
    have h2 : (Except.ok st : Except TopoError VisitState) = Except.ok st2 := h
    have hst : st2 = st := (Except.ok.inj h2).symm
    subst hst
    exact ⟨by simp, fun x hx => hx, ⟨[], by simp, by simp⟩, fun x hx => Or.inl hx, fun hI => hI⟩
  | cons c cs ih =>
    intro st st2 h
    rw [visitList] at h
    split at h
    · cases h
    · rename_i st1 hv
      obtain ⟨h1a, h1b, h1c, ⟨l1, hl1, hl1f⟩, h1e, h1f⟩ := hvisit c st st1 hv
      obtain ⟨h2a, h2b, ⟨l2, hl2, hl2f⟩, h2d, h2e⟩ := ih st1 st2 h
      refine ⟨?_, ?_, ?_, ?_, ?_⟩
      · intro d hd
        rcases List.mem_cons.mp hd with rfl | hd2
        · exact ⟨h2b d h1b, h1a⟩
        · exact h2a d hd2
      · exact fun x hx => h2b x (h1c x hx)
      · refine ⟨l2 ++ l1, by rw [hl2, hl1, List.append_assoc], ?_⟩
        intro x hx
        rcases List.mem_append.mp hx with hx2 | hx1
        · exact fun hc => hl2f x hx2 (h1c x hc)
        · exact hl1f x hx1
      · intro x hx
        rcases h2d x hx with hx1 | hx2 | hx3
        · rcases h1e x hx1 with hy1 | hy2 | hy3
          · exact Or.inl hy1
          · exact Or.inr (Or.inl (hy2 ▸ List.mem_cons_self c cs))
          · exact Or.inr (Or.inr hy3)
        · exact Or.inr (Or.inl (List.mem_cons_of_mem c hx2))
        · exact Or.inr (Or.inr hx3)
      · exact fun hI => h2e (h1f hI)

/-- Every successful DFS visit satisfies its postcondition (the heart of the
orderer's correctness). -/
theorem visitNode_ok (edges : List (String × String)) :
    ∀ (fuel : Nat) (node : String) (preds : List String) (st st2 : VisitState),
      visitNode edges fuel node preds st = Except.ok st2 → VisitOk edges node preds st st2 := by
  intro fuel
  induction fuel with
  | zero => intro node preds st st2 h; cases h
  | succ fuel ih =>
    intro node preds st st2 h
    rw [visitNode] at h
    by_cases hp : node ∈ preds
    · rw [if_pos hp] at h; cases h
    · rw [if_neg hp] at h
      by_cases hv : node ∈ st.visited
      · rw [if_pos hv] at h
        have hst : st2 = st := (Except.ok.inj h).symm
        subst hst
        exact ⟨hp, hv, fun x hx => hx, ⟨[], by simp, by simp⟩, fun x hx => Or.inl hx, fun hI => hI⟩
      · rw [if_neg hv] at h
        split at h
        · cases h
        · rename_i stf hfold
          have hst2 : st2 = { visited := stf.visited, sorted := node :: stf.sorted } :=
            (Except.ok.inj h).symm
          subst hst2
          obtain ⟨hcs, hmono, ⟨l, hl, hlf⟩, hbound, hinv⟩ :=
            visitList_ok edges (node :: preds)
              (fun c s => visitNode edges fuel c (node :: preds) s)
              (fun c s s2 hc => ih c (node :: preds) s s2 hc)
              (childrenOf edges node)
              { visited := node :: st.visited, sorted := st.sorted } stf hfold
          have hnodevis : node ∈ stf.visited := hmono node (List.mem_cons_self node st.visited)
          refine ⟨hp, hnodevis, ?_, ?_, ?_, ?_⟩
          · exact fun x hx => hmono x (List.mem_cons_of_mem node hx)
          · refine ⟨node :: l, by simp [hl], ?_⟩
            intro x hx
            rcases List.mem_cons.mp hx with rfl | hx2
            · exact hv
            · exact fun hc => hlf x hx2 (List.mem_cons_of_mem node hc)
          · intro x hx
            rcases hbound x hx with hx1 | hx2 | hx3
            · rcases List.mem_cons.mp hx1 with rfl | hx4
              · exact Or.inr (Or.inl rfl)
              · exact Or.inl hx4
            · exact Or.inr (Or.inr ⟨(node, x), (mem_childrenOf edges node x).mp hx2, rfl⟩)
            · exact Or.inr (Or.inr hx3)
          · intro hI
            obtain ⟨hnd, hsv, hJ, hT⟩ := hI
            have hImid : StateInv edges (node :: preds)
                { visited := node :: st.visited, sorted := st.sorted } := by
              refine ⟨hnd, fun x hx => List.mem_cons_of_mem node (hsv x hx), ?_, hT⟩
              intro x hx
              rcases List.mem_cons.mp hx with rfl | hx2
              · exact Or.inr (List.mem_cons_self x preds)
              · rcases hJ x hx2 with hy1 | hy2
                · exact Or.inl hy1
                · exact Or.inr (List.mem_cons_of_mem node hy2)
            obtain ⟨hnd2, hsv2, hJ2, hT2⟩ := hinv hImid
            have hnode_ns : node ∉ stf.sorted := by
              intro hns
              rw [hl] at hns
              rcases List.mem_append.mp hns with hn1 | hn2
              · exact hlf node hn1 (List.mem_cons_self node st.visited)
              · exact hv (hsv node hn2)
            have hchild : ∀ b, (node, b) ∈ edges → b ∈ stf.sorted := by
              intro b hb
              obtain ⟨hbv, hbp⟩ := hcs b ((mem_childrenOf edges node b).mpr hb)
              rcases hJ2 b hbv with hy1 | hy2
              · exact hy1
              · exact absurd hy2 hbp
            refine ⟨List.nodup_cons.mpr ⟨hnode_ns, hnd2⟩, ?_, ?_, ?_⟩
            · intro x hx
              rcases List.mem_cons.mp hx with rfl | hx2
              · exact hnodevis
              · exact hsv2 x hx2
            · intro x hx
              rcases hJ2 x hx with hy1 | hy2
              · exact Or.inl (List.mem_cons_of_mem node hy1)
              · rcases List.mem_cons.mp hy2 with rfl | hy3
                · exact Or.inl (List.mem_cons_self x stf.sorted)
                · exact Or.inr hy3
            · intro a b hab u v hsplit
              cases u with
              | nil =>
                rw [List.nil_append] at hsplit
                injection hsplit with ha hv2
                subst ha
                rw [← hv2]
                exact hchild b hab
              | cons u0 u2 =>
                rw [List.cons_append] at hsplit
                injection hsplit with h0 h1
                exact hT2 a b hab u2 v h1

/-- A successful `toposort` output is duplicate-free, contains exactly the
nodes of the edge set, and is topologically sorted. -/
theorem toposort_ok (edges : List (String × String)) (l : List String)
    (h : toposort edges = Except.ok l) :
    l.Nodup ∧ (∀ x, x ∈ l ↔ x ∈ uniqueNodes edges) ∧ TopoSorted edges l := by
  unfold toposort at h
  split at h
  · cases h
  · rename_i stf hfold
    have hl : l = stf.sorted := (Except.ok.inj h).symm
    subst hl
    obtain ⟨hcs, hmono, ⟨lnew, hlnew, hlf⟩, hbound, hinv⟩ :=
      visitList_ok edges []
        (fun n s => visitNode edges ((uniqueNodes edges).length + 1) n [] s)
        (fun c s s2 hc => visitNode_ok edges ((uniqueNodes edges).length + 1) c [] s s2 hc)
        (uniqueNodes edges) { visited := [], sorted := [] } stf hfold
    have hI : StateInv edges [] { visited := [], sorted := [] } := by
      refine ⟨List.nodup_nil, by simp, by simp, ?_⟩
      intro a b _ u v hsplit
      exact absurd hsplit.symm (by simp)
    obtain ⟨hnd, hsv, hJ, hT⟩ := hinv hI
    refine ⟨hnd, ?_, hT⟩
    intro x
    constructor
    · intro hx
      rcases hbound x (hsv x hx) with h1 | h2 | h3
      · simp at h1
      · exact h2
      · obtain ⟨e, he, rfl⟩ := h3
        exact (mem_uniqueNodes edges e.2).mpr ⟨e, he, Or.inr rfl⟩
    · intro hx
      rcases hJ x (hcs x hx).1 with h1 | h2
      · exact h1
      · simp at h2

/-- Index of an element at its split point, when absent from the prefix. -/
theorem indexOf_append_cons_self (a : String) :
    ∀ (u v : List String), a ∉ u → List.indexOf a (u ++ a :: v) = u.length := by
  intro u
  induction u with
  | nil => intro v _; simp [List.indexOf_cons_self]
  | cons x u ih =>
    intro v hnot
    have hxa : x ≠ a := fun hc => hnot (hc ▸ List.mem_cons_self x u)
    rw [List.cons_append, List.indexOf_cons_ne _ hxa,
      ih v (fun hc => hnot (List.mem_cons_of_mem x hc))]
    rfl

/-- Index of an element occurring only after the split point. -/
theorem indexOf_append_cons_other (b a : String) :
    ∀ (u v : List String), b ∉ u → b ≠ a →
      List.indexOf b (u ++ a :: v) = u.length + 1 + List.indexOf b v := by
  intro u
  induction u with
  | nil =>
    intro v _ hba
    rw [List.nil_append, List.indexOf_cons_ne _ (fun hc => hba hc.symm)]
    simp only [List.length_nil, Nat.succ_eq_add_one]
    omega
  | cons x u ih =>
    intro v hnot hba
    have hxb : x ≠ b := fun hc => hnot (hc ▸ List.mem_cons_self x u)
    rw [List.cons_append, List.indexOf_cons_ne _ hxb,
      ih v (fun hc => hnot (List.mem_cons_of_mem x hc)) hba]
    simp only [List.length_cons]
    omega

/-- In a duplicate-free list, anything left of a split point indexes before
anything right of it. -/
theorem indexOf_lt_of_nodup_split (l u v : List String) (a b : String)
    (hnd : l.Nodup) (hsplit : l = u ++ a :: v) (hbv : b ∈ v) :
    List.indexOf a l < List.indexOf b l := by
  subst hsplit
  have hdisj := List.disjoint_of_nodup_append hnd
  have ha_u : a ∉ u := fun hc => hdisj hc (List.mem_cons_self a v)
  have hav : (a :: v).Nodup := hnd.of_append_right
  have ha_v : a ∉ v := (List.nodup_cons.mp hav).1
  have hb_ne : b ≠ a := fun hc => ha_v (hc ▸ hbv)
  have hb_u : b ∉ u := fun hc => hdisj hc (List.mem_cons_of_mem a hbv)
  rw [indexOf_append_cons_self a u v ha_u, indexOf_append_cons_other b a u v hb_u hb_ne]
  omega

/-- Reversal of a duplicate-free list mirrors indices. -/
theorem indexOf_reverse_nodup (l : List String) (hnd : l.Nodup) (a : String) (ha : a ∈ l) :
    List.indexOf a l.reverse = l.length - 1 - List.indexOf a l := by
  obtain ⟨u, v, hsplit⟩ := List.append_of_mem ha
  subst hsplit
  have hdisj := List.disjoint_of_nodup_append hnd
  have ha_u : a ∉ u := fun hc => hdisj hc (List.mem_cons_self a v)
  have hav : (a :: v).Nodup := hnd.of_append_right
  have ha_v : a ∉ v := (List.nodup_cons.mp hav).1
  have ha_vr : a ∉ v.reverse := fun hc => ha_v (List.mem_reverse.mp hc)
  have hrev : (u ++ a :: v).reverse = v.reverse ++ a :: u.reverse := by
    rw [List.reverse_append, List.reverse_cons, List.append_assoc]
    rfl
  rw [hrev, indexOf_append_cons_self a v.reverse u.reverse ha_vr,
    indexOf_append_cons_self a u v ha_u]
  simp only [List.length_reverse, List.length_append, List.length_cons]
  omega

/-- A successful sort puts every edge source strictly before its target. -/
theorem toposort_topo_index (edges : List (String × String)) (l : List String)
    (h : toposort edges = Except.ok l) (a b : String) (hab : (a, b) ∈ edges) :
    List.indexOf a l < List.indexOf b l := by
  obtain ⟨hnd, hmem, hT⟩ := toposort_ok edges l h
  have ha : a ∈ l := (hmem a).mpr ((mem_uniqueNodes edges a).mpr ⟨(a, b), hab, Or.inl rfl⟩)
  obtain ⟨u, v, hsplit⟩ := List.append_of_mem ha
  exact indexOf_lt_of_nodup_split l u v a b hnd hsplit (hT a b hab u v hsplit)

/-- A cyclic edge set makes `toposort` fail with the cyclic-graph error. -/
theorem toposort_cycle_error (edges : List (String × String)) (hc : hasCycle edges) :
    toposort edges = Except.error TopoError.cyclicGraph := by
  cases h : toposort edges with
  | error e => cases e; rfl
  | ok l =>
    exfalso
    obtain ⟨a, hcyc⟩ := hc
    have hmono : ∀ x y, edgeRel edges x y → List.indexOf x l < List.indexOf y l :=
      fun x y hxy => toposort_topo_index edges l h x y hxy
    have htg : Relation.TransGen (fun x y => List.indexOf x l < List.indexOf y l) a a :=
      Relation.TransGen.mono hmono hcyc
    have htrans : Transitive (fun x y : String => List.indexOf x l < List.indexOf y l) :=
      fun x y z h1 h2 => h1.trans h2
    rw [Relation.transGen_eq_self htrans] at htg
    exact lt_irrefl _ htg

/-! ## Claim theorems: dependency tree -/

/-- Claim C1: on every successfully ordered graph, `deployOrder` is the exact
reverse of `destroyOrder`, the two have a common length, and every stack's
index in `deployOrder` equals that length minus one minus its index in
`destroyOrder`. -/
theorem getDependencyTree_mirror (rel : String → String) (g : ParsedGraph)
    (t : DependencyTree) (h : getDependencyTree rel g = Except.ok t) :
    t.deployOrder = t.destroyOrder.reverse ∧
    t.deployOrder.length = t.destroyOrder.length ∧
    ∀ S ∈ t.destroyOrder,
      List.indexOf S t.deployOrder =
        t.destroyOrder.length - 1 - List.indexOf S t.destroyOrder := by
  unfold getDependencyTree at h
  split at h
  · cases h
  · rename_i l hts
    have ht : t = { destroyOrder := l, deployOrder := l.reverse
                  , noDeps := (g.nodeStmts.map rel).filter (fun n => decide (n ∉ l)) } :=
      (Except.ok.inj h).symm
    subst ht
    obtain ⟨hnd, -, -⟩ := toposort_ok (onlyEdges rel g) l hts
    exact ⟨rfl, by simp, fun S hS => indexOf_reverse_nodup l hnd S hS⟩

/-- Witness for C1 on the graph with the single edge `(a, b)` and the
standalone node `c`. -/
theorem getDependencyTree_mirror_witness :
    (getDependencyTree id { edgeStmts := [("a", "b")], nodeStmts := ["c"] } =
      Except.ok { destroyOrder := ["a", "b"], deployOrder := ["b", "a"], noDeps := ["c"] }) ∧
    ((["b", "a"] : List String) = (["a", "b"] : List String).reverse ∧
     (["b", "a"] : List String).length = (["a", "b"] : List String).length ∧
     ∀ S ∈ (["a", "b"] : List String),
       List.indexOf S ["b", "a"] =
         (["a", "b"] : List String).length - 1 - List.indexOf S ["a", "b"]) :=
  ⟨rfl, getDependencyTree_mirror id { edgeStmts := [("a", "b")], nodeStmts := ["c"] }
    { destroyOrder := ["a", "b"], deployOrder := ["b", "a"], noDeps := ["c"] } rfl⟩

/-- Claim C2: a cyclic edge set makes the ordering step fail with the
cyclic-graph error: no `OrderedDependencies` value is produced, and the run
produces no per-stack status report. -/
theorem getDependencyTree_cycle_fatal (rel : String → String) (g : ParsedGraph)
    (stateEvs planEvs : String → SpawnEvents) (h : hasCycle (onlyEdges rel g)) :
    getDependencyTree rel g = Except.error TopoError.cyclicGraph ∧
    (∀ t, getDependencyTree rel g ≠ Except.ok t) ∧
    goStatusReport rel g stateEvs planEvs = none := by
  have hts := toposort_cycle_error (onlyEdges rel g) h
  have h1 : getDependencyTree rel g = Except.error TopoError.cyclicGraph := by
    unfold getDependencyTree
    rw [hts]
  refine ⟨h1, ?_, ?_⟩
  · intro t hcontra
    rw [h1] at hcontra
    cases hcontra
  · unfold goStatusReport
    rw [h1]

/-- Witness for C2 on the two-cycle between `a` and `b`. -/
theorem getDependencyTree_cycle_fatal_witness :
    hasCycle (onlyEdges id { edgeStmts := [("a", "b"), ("b", "a")], nodeStmts := [] }) ∧
    getDependencyTree id { edgeStmts := [("a", "b"), ("b", "a")], nodeStmts := [] } =
      Except.error TopoError.cyclicGraph ∧
    goStatusReport id { edgeStmts := [("a", "b"), ("b", "a")], nodeStmts := [] }
      (fun _ => SpawnEvents.mk none "" "" (some 0))
      (fun _ => SpawnEvents.mk none "" "" (some 0)) = none :=
  have h1 : edgeRel (onlyEdges id { edgeStmts := [("a", "b"), ("b", "a")], nodeStmts := [] })
      "a" "b" := by decide
  have h2 : edgeRel (onlyEdges id { edgeStmts := [("a", "b"), ("b", "a")], nodeStmts := [] })
      "b" "a" := by decide
  have hc : hasCycle (onlyEdges id { edgeStmts := [("a", "b"), ("b", "a")], nodeStmts := [] }) :=
    ⟨"a", Relation.TransGen.head h1 (Relation.TransGen.single h2)⟩
  have hall := getDependencyTree_cycle_fatal id
    { edgeStmts := [("a", "b"), ("b", "a")], nodeStmts := [] }
    (fun _ => SpawnEvents.mk none "" "" (some 0))
    (fun _ => SpawnEvents.mk none "" "" (some 0)) hc
  ⟨hc, hall.1, hall.2.2⟩

/-- Claim C3: `noDeps` and the set underlying `destroyOrder` are disjoint,
and their union is exactly the set of node identifiers mentioned anywhere
in the raw graph (as a normalized edge endpoint or standalone node
declaration). -/
theorem getDependencyTree_partition (rel : String → String) (g : ParsedGraph)
    (t : DependencyTree) (h : getDependencyTree rel g = Except.ok t) :
    (∀ x, (x ∈ t.noDeps ∨ x ∈ t.destroyOrder) ↔ x ∈ allNodes rel g) ∧
    (∀ x ∈ t.noDeps, x ∉ t.destroyOrder) := by
  unfold getDependencyTree at h
  split at h
  · cases h
  · rename_i l hts
    have ht : t = { destroyOrder := l, deployOrder := l.reverse
                  , noDeps := (g.nodeStmts.map rel).filter (fun n => decide (n ∉ l)) } :=
      (Except.ok.inj h).symm
    subst ht
    obtain ⟨-, hmem, -⟩ := toposort_ok (onlyEdges rel g) l hts
    have hchar : ∀ x, x ∈ l ↔ ∃ e ∈ g.edgeStmts, x = rel e.1 ∨ x = rel e.2 := by
      intro x
      rw [hmem x, mem_uniqueNodes]
      constructor
      · rintro ⟨e2, he2, hor⟩
        simp only [onlyEdges, jsSetOfArrays, List.mem_map] at he2
        obtain ⟨e, he, rfl⟩ := he2
        exact ⟨e, he, hor⟩
      · rintro ⟨e, he, hor⟩
        refine ⟨(rel e.1, rel e.2), ?_, hor⟩
        simp only [onlyEdges, jsSetOfArrays, List.mem_map]
        exact ⟨e, he, rfl⟩
    have hAll : ∀ x, x ∈ allNodes rel g ↔
        ((∃ e ∈ g.edgeStmts, x = rel e.1 ∨ x = rel e.2) ∨ ∃ n ∈ g.nodeStmts, x = rel n) := by
      intro x
      simp only [allNodes, List.mem_append, List.mem_map]
      constructor
      · rintro ((⟨e, he, rfl⟩ | ⟨e, he, rfl⟩) | ⟨n, hn, rfl⟩)
        · exact Or.inl ⟨e, he, Or.inl rfl⟩
        · exact Or.inl ⟨e, he, Or.inr rfl⟩
        · exact Or.inr ⟨n, hn, rfl⟩
      · rintro (⟨e, he, rfl | rfl⟩ | ⟨n, hn, rfl⟩)
        · exact Or.inl (Or.inl ⟨e, he, rfl⟩)
        · exact Or.inl (Or.inr ⟨e, he, rfl⟩)
        · exact Or.inr ⟨n, hn, rfl⟩
    constructor
    · intro x
      rw [hAll x]
      constructor
      · rintro (hnd | hl)
        · obtain ⟨hx1, -⟩ := List.mem_filter.mp hnd
          obtain ⟨n, hn, rfl⟩ := List.mem_map.mp hx1
          exact Or.inr ⟨n, hn, rfl⟩
        · exact Or.inl ((hchar x).mp hl)
      · rintro (hend | ⟨n, hn, rfl⟩)
        · exact Or.inr ((hchar (x := x)).mpr hend)
        · by_cases hxl : rel n ∈ l
          · exact Or.inr hxl
          · refine Or.inl (List.mem_filter.mpr ⟨List.mem_map.mpr ⟨n, hn, rfl⟩, ?_⟩)
            simpa using hxl
    · intro x hx
      have h2 := (List.mem_filter.mp hx).2
      simpa using h2

/-- Witness for C3 on the graph with edge `(x, y)` and standalone node
declarations `z` and `y`. -/
theorem getDependencyTree_partition_witness :
    (getDependencyTree id { edgeStmts := [("x", "y")], nodeStmts := ["z", "y"] } =
      Except.ok { destroyOrder := ["x", "y"], deployOrder := ["y", "x"], noDeps := ["z"] }) ∧
    ((∀ w, (w ∈ (["z"] : List String) ∨ w ∈ (["x", "y"] : List String)) ↔
        w ∈ allNodes id { edgeStmts := [("x", "y")], nodeStmts := ["z", "y"] }) ∧
     (∀ w ∈ (["z"] : List String), w ∉ (["x", "y"] : List String))) :=
  ⟨rfl, getDependencyTree_partition id { edgeStmts := [("x", "y")], nodeStmts := ["z", "y"] }
    { destroyOrder := ["x", "y"], deployOrder := ["y", "x"], noDeps := ["z"] } rfl⟩

/-- Claim C9: whenever a dependency tree is produced, the orchestrator
produces a complete report: one result for every stack of the processing
set `deployOrder ++ noDeps`, each computed from that stack's own probe
events alone — so no stack's probe failure (launch failures included) can
abort or remove any other stack's result. -/
theorem getStatusAll_complete (rel : String → String) (g : ParsedGraph)
    (t : DependencyTree) (stateEvs planEvs : String → SpawnEvents)
    (h : getDependencyTree rel g = Except.ok t) :
    ∃ results : List StatusResult,
      goStatusReport rel g stateEvs planEvs = some results ∧
      results = (goProcessingSet t).map (fun s => probeStack (stateEvs s) (planEvs s)) ∧
      results.length = (goProcessingSet t).length := by
  refine ⟨(goProcessingSet t).map (fun s => probeStack (stateEvs s) (planEvs s)), ?_, rfl, by simp⟩
  unfold goStatusReport
  rw [h]
  show (getStatusAll stateEvs planEvs (goProcessingSet t)).toOption =
    some ((goProcessingSet t).map (fun s => probeStack (stateEvs s) (planEvs s)))
  rw [getStatusAll_eq]
  rfl

/-- Witness for C9: every stack's state probe is an ENOENT launch failure,
and the report still contains one result per stack of `deployOrder ++
noDeps`. -/
theorem getStatusAll_complete_witness :
    (getDependencyTree id { edgeStmts := [("a", "b")], nodeStmts := ["c"] } =
      Except.ok { destroyOrder := ["a", "b"], deployOrder := ["b", "a"], noDeps := ["c"] }) ∧
    ∃ results : List StatusResult,
      goStatusReport id { edgeStmts := [("a", "b")], nodeStmts := ["c"] }
          (fun _ => SpawnEvents.mk (some "Error: spawn terragrunt ENOENT") "" "" none)
          (fun _ => SpawnEvents.mk none "" "" (some 0)) = some results ∧
      results = (goProcessingSet
          { destroyOrder := ["a", "b"], deployOrder := ["b", "a"], noDeps := ["c"] }).map
          (fun s => probeStack
            ((fun _ => SpawnEvents.mk (some "Error: spawn terragrunt ENOENT") "" "" none) s)
            ((fun _ => SpawnEvents.mk none "" "" (some 0)) s)) ∧
      results.length = (goProcessingSet
          { destroyOrder := ["a", "b"], deployOrder := ["b", "a"], noDeps := ["c"] }).length :=
  ⟨rfl, getStatusAll_complete id { edgeStmts := [("a", "b")], nodeStmts := ["c"] }
    { destroyOrder := ["a", "b"], deployOrder := ["b", "a"], noDeps := ["c"] }
    (fun _ => SpawnEvents.mk (some "Error: spawn terragrunt ENOENT") "" "" none)
    (fun _ => SpawnEvents.mk none "" "" (some 0)) rfl⟩
